import Mathlib

/-!
Verification development for the EventNexus in-process publish/subscribe
dispatcher (`src/event.manager.ts`).

The embedding models:

* the registry `listeners : Map<string, Set<NexusEventListener>>` as an
  association list `Listeners := List (String × List Listener)`, where a
  JavaScript `Set` is an insertion-ordered list deduplicated by object
  identity; object identity of a listener is modelled by a `Nat` id
  (distinct ids are distinct objects, and a well-formed state never holds
  two listeners with the same id, mirroring the fact that one object is one
  set member);
* a listener handler's observable behaviour during one dispatch as the
  inductive `Handler`: return normally, raise an error (modelled by a `Nat`
  error code; for `emitAsync` this also covers a rejected promise, a timeout
  rejection or an abort rejection of the wrapped outcome, all of which reach
  the same `catch`), or call `register` on the manager and continue —
  registration from inside a handler is exactly the re-entrancy the spec
  discusses;
* `emit` (event.manager.ts lines 129–157): the specific set and the wildcard
  set are captured as live references (`this.listeners.get(...)`) before
  dispatch, but `run` takes its `Array.from` snapshot only when the group's
  pass begins.  `Map.set` re-stores the same `Set` object for an existing
  key, so a reference captured at dispatch start observes registrations made
  during dispatch; a key absent at dispatch start yields `undefined` and the
  pass is skipped even if the key is registered mid-dispatch.  The shared
  `idx` counter threads across both passes;
* `emitAsync` (lines 174–223): the combined snapshot is built up front;
  `runOne` routes a failure to the error sink and re-throws only when
  `mode === 'sequential' && stopOnError`; the `else` branch
  (`Promise.all`) covers every mode string other than `'sequential'`;
* `withTimeout` (lines 234–270) as a finite path model `withTimeoutRun`:
  given which of the racing settlements wins, it returns the settled
  outcome together with whether a scheduled timer is still pending and
  whether the abort subscription is still attached at the moment the
  wrapped promise settles.  (`timeoutMs` is modelled as `Option Nat`, so
  JavaScript truthiness `!timeoutMs` is `none`/`some 0` and
  `Number.isFinite` always holds.)

Error sink calls (`NexusEventManager.onError?.(e, {event, listenerIndex})`)
are collected in order in an `errors` list; if no sink is configured the
list is simply dropped by the caller, which models silent absorption.  The
interpreters are total Lean functions, which models the fact that `emit`
never raises to its caller and `register` always succeeds.
-/

namespace EventNexus

/-- JavaScript `String.prototype.trim()`: strip leading and trailing
whitespace (structurally recursive so that concrete instances evaluate in
the kernel; on the ASCII keys used here it agrees with JS trim). -/
def jsTrim (s : String) : String :=
  ⟨((s.data.dropWhile Char.isWhitespace).reverse.dropWhile Char.isWhitespace).reverse⟩

/-- Observable behaviour of one listener handler during one dispatch:
return normally, raise/reject with error code `e`, or register a new
listener `⟨id, handler⟩` under a key and continue behaving as `rest`. -/
inductive Handler where
  | ok : Handler
  | throwErr : Nat → Handler
  | registerThen : String → Nat → Handler → Handler → Handler
deriving DecidableEq, Repr

/-- A registered listener: `id` models JavaScript object identity
(the deduplication key of the `Set`), `handler` its behaviour. -/
structure Listener where
  id : Nat
  handler : Handler
deriving DecidableEq, Repr

/-- The registry `Map<string, Set<NexusEventListener>>`: association list
from key to the insertion-ordered members of its `Set`. -/
abbrev Listeners := List (String × List Listener)

/-- `this.listeners.get(key)`: first entry for `key`, if any. -/
def getL : Listeners → String → Option (List Listener)
  | [], _ => none
  | p :: rest, key => if p.1 = key then some p.2 else getL rest key

/-- `set.add(listener)`: append unless an identical (same-identity) member
is already present, in which case the set is unchanged. -/
def addOnce (l : Listener) (ls : List Listener) : List Listener :=
  if ls.any (fun x => x.id == l.id) then ls else ls ++ [l]

/-- `this.listeners.set(name, set)` after `set.add(l)`: update the entry in
place if the key is present, else append a fresh entry `(name, [l])`
(the `new Set()` branch of `register`). -/
def addToKey (l : Listener) : Listeners → String → Listeners
  | [], name => [(name, [l])]
  | p :: rest, name =>
    if p.1 = name then (p.1, addOnce l p.2) :: rest else p :: addToKey l rest name

/-- `register(eventName, listener)` (lines 103–120): trim the key, add the
listener to the (possibly fresh) set, store the set back.  The advisory
max-listeners check only logs and changes no state, so it has no model. -/
def registerL (st : Listeners) (eventName : String) (l : Listener) : Listeners :=
  addToKey l st (jsTrim eventName)

/-- Run one handler against the registry: final registry plus the error it
raised, if any. -/
def runHandler : Handler → Listeners → Listeners × Option Nat
  | Handler.ok, st => (st, none)
  | Handler.throwErr e, st => (st, some e)
  | Handler.registerThen key i hnew rest, st =>
      runHandler rest (registerL st key ⟨i, hnew⟩)

/-- The error outcome of a handler (independent of the registry state). -/
def herr : Handler → Option Nat
  | Handler.ok => none
  | Handler.throwErr e => some e
  | Handler.registerThen _ _ _ rest => herr rest

/-- One call `onError(err, { event, listenerIndex })` to the error sink. -/
structure SinkCall where
  err : Nat
  event : String
  listenerIndex : Nat
deriving DecidableEq, Repr

/-- Result of one `run(set)` pass inside `emit`: final registry, final value
of the shared `idx` counter, invoked listener ids in order, sink calls in
order. -/
structure GroupOut where
  state : Listeners
  idx : Nat
  invoked : List Nat
  errors : List SinkCall
deriving DecidableEq, Repr

/-- The loop body of `run` in `emit` (lines 140–154) over an already-frozen
`Array.from` snapshot: invoke each handler, catch its error into the sink
with the current `idx`, increment `idx` in `finally`. -/
def runGroup (name : String) : List Listener → Listeners → Nat → GroupOut
  | [], st, k => ⟨st, k, [], []⟩
  | l :: rest, st, k =>
    let r := runHandler l.handler st
    let out := runGroup name rest r.1 (k + 1)
    ⟨out.state, out.idx, l.id :: out.invoked,
      match r.2 with
      | some e => ⟨e, name, k⟩ :: out.errors
      | none => out.errors⟩

/-- `run(specific)`: the `Array.from(specific)` snapshot is taken when the
pass begins, which is the dispatch-start state (nothing ran before it);
an absent key gives the empty pass of `if (!set || set.size === 0)`. -/
def emitSpecPass (st : Listeners) (evName : String) : GroupOut :=
  runGroup (jsTrim evName) ((getL st (jsTrim evName)).getD []) st 0

/-- The array iterated by the wildcard pass: `wildcard` was captured as a
live `Set` reference at dispatch start (line 136), so `if (wildcard)
run(wildcard)` is skipped when `*` was absent then, and otherwise
`Array.from` reads the set as it stands after the specific pass. -/
def emitWildcardArr (st : Listeners) (evName : String) : List Listener :=
  if (getL st "*").isSome then (getL (emitSpecPass st evName).state "*").getD [] else []

/-- Observable result of one `emit` call. -/
structure EmitOut where
  state : Listeners
  invoked : List Nat
  errors : List SinkCall
deriving DecidableEq, Repr

/-- `emit(event)` (lines 129–157): trim the name, run the specific pass,
then the wildcard pass with the shared `idx` carried over. -/
def emit (st : Listeners) (evName : String) : EmitOut :=
  let o1 := emitSpecPass st evName
  let o2 := runGroup (jsTrim evName) (emitWildcardArr st evName) o1.state o1.idx
  ⟨o2.state, o1.invoked ++ o2.invoked, o1.errors ++ o2.errors⟩

/-- The combined snapshot of `emitAsync` (lines 190–193): `Array.from` of
the specific set followed by `Array.from` of the wildcard set, both read
from the dispatch-start state.  When the trimmed name is `*` both lookups
return the same set. -/
def asyncSnapshot (st : Listeners) (evName : String) : List Listener :=
  (getL st (jsTrim evName)).getD [] ++ (getL st "*").getD []

/-- Observable result of one `emitAsync` call: `rejected = some e` means
the returned promise rejects with `e`. -/
structure AsyncOut where
  state : Listeners
  invoked : List Nat
  errors : List SinkCall
  rejected : Option Nat
deriving DecidableEq, Repr

/-- The sequential loop (lines 216–219) with `runOne` inlined: on a failure
the sink is called with the listener index, and when `stopOnError` is set
the error is re-thrown, halting the loop and rejecting the call. -/
def runSeq (name : String) (stopOnError : Bool) : List Listener → Listeners → Nat → AsyncOut
  | [], st, _ => ⟨st, [], [], none⟩
  | l :: rest, st, k =>
    let r := runHandler l.handler st
    match r.2 with
    | none =>
      let out := runSeq name stopOnError rest r.1 (k + 1)
      ⟨out.state, l.id :: out.invoked, out.errors, out.rejected⟩
    | some e =>
      if stopOnError then ⟨r.1, [l.id], [⟨e, name, k⟩], some e⟩
      else
        let out := runSeq name stopOnError rest r.1 (k + 1)
        ⟨out.state, l.id :: out.invoked, ⟨e, name, k⟩ :: out.errors, out.rejected⟩

/-- The `Promise.all` branch (line 221): every `runOne` is started, in
snapshot order for the synchronous part of each handler; `runOne` never
re-throws because `mode === 'sequential'` is false, so `Promise.all`
resolves once every wrapped outcome has settled. -/
def runConc (name : String) : List Listener → Listeners → Nat → AsyncOut
  | [], st, _ => ⟨st, [], [], none⟩
  | l :: rest, st, k =>
    let r := runHandler l.handler st
    let out := runConc name rest r.1 (k + 1)
    ⟨out.state, l.id :: out.invoked,
      (match r.2 with
       | some e => ⟨e, name, k⟩ :: out.errors
       | none => out.errors),
      none⟩

/-- `emitAsync(event, options)` (lines 174–223): `mode` defaults to
`"sequential"` when absent; only the exact string `"sequential"` selects
the sequential loop, everything else takes the `Promise.all` branch. -/
def emitAsync (st : Listeners) (evName : String) (mode : Option String)
    (stopOnError : Bool) : AsyncOut :=
  let m := mode.getD "sequential"
  if m = "sequential" then runSeq (jsTrim evName) stopOnError (asyncSnapshot st evName) st 0
  else runConc (jsTrim evName) (asyncSnapshot st evName) st 0

/-- Insertion-ordered ids registered under key `k` in state `st`. -/
def keyIds (st : Listeners) (k : String) : List Nat :=
  ((getL st k).getD []).map Listener.id

/-- The sink calls produced by running a listener array starting at index
`k`: one call per failing handler, carrying its index. -/
def sinkCalls (name : String) : Nat → List Listener → List SinkCall
  | _, [] => []
  | k, l :: rest =>
    match herr l.handler with
    | some e => ⟨e, name, k⟩ :: sinkCalls name (k + 1) rest
    | none => sinkCalls name (k + 1) rest

/-- Registry state after a listener array has run. -/
def groupState : List Listener → Listeners → Listeners
  | [], st => st
  | l :: rest, st => groupState rest (runHandler l.handler st).1

/-- Default listener for positional (`List.getD`) access in statements. -/
def dummyL : Listener := ⟨0, Handler.ok⟩

/- ### `withTimeout` path model -/

/-- How the wrapped promise settled. -/
inductive WTOutcome where
  | resolvedVal : WTOutcome
  | rejectedErr : WTOutcome
  | rejectedTimeout : WTOutcome
  | rejectedAborted : WTOutcome
deriving DecidableEq, Repr

/-- Which of the racing settlements happened first: the underlying promise
resolved, the underlying promise rejected, the `setTimeout` timer fired, or
the abort event fired. -/
inductive RaceWinner where
  | underlyingOk : RaceWinner
  | underlyingErr : RaceWinner
  | timerFired : RaceWinner
  | abortFired : RaceWinner
deriving DecidableEq, Repr

/-- State at the moment the wrapped promise settles: the outcome, whether a
scheduled timer is still pending, and whether the `abort` listener is still
attached to the signal. -/
structure WTState where
  outcome : WTOutcome
  timerPending : Bool
  subAttached : Bool
deriving DecidableEq, Repr

/-- JavaScript truthiness of `timeoutMs` (line 239 `!timeoutMs` and line
252 `timeoutMs && Number.isFinite(timeoutMs)`; over `Nat` finiteness always
holds, so the two conditions coincide). -/
def wtTruthy : Option Nat → Bool
  | none => false
  | some n => n != 0

/-- `withTimeout(p, timeoutMs, signal)` (lines 234–270) as a path model.
`signalAborted = none` means no signal was passed; `some b` means a signal
was passed whose `aborted` flag is `b` at call time.  `none` as a result
marks an impossible combination (that racer does not exist on this path):

* line 239: neither resource requested — `p` is returned unchanged, so only
  the underlying promise can settle it and nothing was ever allocated;
* line 248: signal already aborted — `onAbort()` runs at once:
  `clearTimeout` of the still-unset timer, reject `Aborted`; no timer is
  created and no listener attached;
* lines 257–267: the underlying promise settles first — both a
  `clearTimeout` and a `removeEventListener` run;
* lines 253–255: the timer fires first — it rejects `Timeout`; the fired
  timer is no longer pending, but nothing removes the abort listener;
* lines 243–246: the abort event fires first — `onAbort` clears the timer
  and rejects `Aborted`, but does not remove itself from the signal. -/
def withTimeoutRun (timeoutMs : Option Nat) (signalAborted : Option Bool)
    (w : RaceWinner) : Option WTState :=
  if wtTruthy timeoutMs = false ∧ signalAborted = none then
    match w with
    | RaceWinner.underlyingOk => some ⟨WTOutcome.resolvedVal, false, false⟩
    | RaceWinner.underlyingErr => some ⟨WTOutcome.rejectedErr, false, false⟩
    | RaceWinner.timerFired => none
    | RaceWinner.abortFired => none
  else if signalAborted = some true then
    some ⟨WTOutcome.rejectedAborted, false, false⟩
  else
    match w with
    | RaceWinner.underlyingOk => some ⟨WTOutcome.resolvedVal, false, false⟩
    | RaceWinner.underlyingErr => some ⟨WTOutcome.rejectedErr, false, false⟩
    | RaceWinner.timerFired =>
        if wtTruthy timeoutMs then
          some ⟨WTOutcome.rejectedTimeout, false, signalAborted.isSome⟩
        else none
    | RaceWinner.abortFired =>
        if signalAborted.isSome then some ⟨WTOutcome.rejectedAborted, false, true⟩
        else none

/-- Concrete registry for the dispatch-time-registration counterexample:
one listener on key `a` whose handler registers a new `*` listener (id 1),
and one pre-existing `*` listener (id 2). -/
def c3StateEx : Listeners :=
  [("a", [⟨0, Handler.registerThen "*" 1 Handler.ok Handler.ok⟩]),
   ("*", [⟨2, Handler.ok⟩])]


/-! ### Helper lemmas -/

theorem runHandler_snd (h : Handler) (st : Listeners) : (runHandler h st).2 = herr h := by
  induction h generalizing st with
  | ok => rfl
  | throwErr e => rfl
  | registerThen key i hnew rest ih1 ih2 => simp [runHandler, herr, ih2]

theorem addOnce_mono (l : Listener) (ls : List Listener) : ls <+: addOnce l ls := by
  unfold addOnce
  split
  · exact List.prefix_rfl
  · exact ⟨[l], rfl⟩

theorem addOnce_idem (l : Listener) (ls : List Listener) :
    addOnce l (addOnce l ls) = addOnce l ls := by
  by_cases hany : (ls.any fun x => x.id == l.id) = true
  · simp [addOnce, hany]
  · have h2 : ((ls ++ [l]).any fun x => x.id == l.id) = true := by simp
    simp [addOnce, hany, h2]

theorem getL_addToKey_self (l : Listener) (st : Listeners) (n : String) :
    getL (addToKey l st n) n = some (addOnce l ((getL st n).getD [])) := by
  induction st with
  | nil => simp [addToKey, getL, addOnce]
  | cons p rest ih =>
      by_cases hp : p.1 = n
      · simp [addToKey, getL, hp]
      · simp [addToKey, getL, hp, ih]

theorem getL_addToKey_ne (l : Listener) (st : Listeners) (n k : String) (hk : k ≠ n) :
    getL (addToKey l st n) k = getL st k := by
  induction st with
  | nil => simp [addToKey, getL, Ne.symm hk]
  | cons p rest ih =>
      by_cases hp : p.1 = n
      · have hpk : ¬ p.1 = k := by rw [hp]; exact Ne.symm hk
        simp [addToKey, getL, hp, hpk, Ne.symm hk]
      · simp [addToKey, getL, hp, ih]

theorem getL_addToKey_mono (l : Listener) (st : Listeners) (n k : String) :
    ((getL st k).getD []) <+: ((getL (addToKey l st n) k).getD []) := by
  by_cases hk : k = n
  · subst hk
    rw [getL_addToKey_self]
    simpa using addOnce_mono l ((getL st k).getD [])
  · rw [getL_addToKey_ne l st n k hk]

theorem runHandler_mono (h : Handler) (st : Listeners) (k : String) :
    ((getL st k).getD []) <+: ((getL (runHandler h st).1 k).getD []) := by
  induction h generalizing st with
  | ok => exact List.prefix_rfl
  | throwErr e => exact List.prefix_rfl
  | registerThen key i hnew rest ih1 ih2 =>
      exact (getL_addToKey_mono ⟨i, hnew⟩ st (jsTrim key) k).trans
        (ih2 (registerL st key ⟨i, hnew⟩))

theorem groupState_mono (arr : List Listener) (st : Listeners) (k : String) :
    ((getL st k).getD []) <+: ((getL (groupState arr st) k).getD []) := by
  induction arr generalizing st with
  | nil => exact List.prefix_rfl
  | cons l rest ih => exact (runHandler_mono l.handler st k).trans (ih _)

theorem runGroup_eq (name : String) (arr : List Listener) (st : Listeners) (k : Nat) :
    runGroup name arr st k
      = ⟨groupState arr st, k + arr.length, arr.map Listener.id, sinkCalls name k arr⟩ := by
  induction arr generalizing st k with
  | nil => simp [runGroup, groupState, sinkCalls]
  | cons l rest ih =>
      cases he : herr l.handler with
      | none =>
          simp only [runGroup, ih, runHandler_snd, he, groupState, sinkCalls,
            List.map_cons, List.length_cons, GroupOut.mk.injEq, true_and, and_true]
          omega
      | some e =>
          simp only [runGroup, ih, runHandler_snd, he, groupState, sinkCalls,
            List.map_cons, List.length_cons, GroupOut.mk.injEq, true_and, and_true]
          omega

theorem runConc_eq (name : String) (arr : List Listener) (st : Listeners) (k : Nat) :
    runConc name arr st k
      = ⟨groupState arr st, arr.map Listener.id, sinkCalls name k arr, none⟩ := by
  induction arr generalizing st k with
  | nil => simp [runConc, groupState, sinkCalls]
  | cons l rest ih =>
      cases he : herr l.handler with
      | none => simp [runConc, ih, runHandler_snd, he, groupState, sinkCalls]
      | some e => simp [runConc, ih, runHandler_snd, he, groupState, sinkCalls]

theorem runSeq_false_eq (name : String) (arr : List Listener) (st : Listeners) (k : Nat) :
    runSeq name false arr st k
      = ⟨groupState arr st, arr.map Listener.id, sinkCalls name k arr, none⟩ := by
  induction arr generalizing st k with
  | nil => simp [runSeq, groupState, sinkCalls]
  | cons l rest ih =>
      cases he : herr l.handler with
      | none => simp [runSeq, ih, runHandler_snd, he, groupState, sinkCalls]
      | some e => simp [runSeq, ih, runHandler_snd, he, groupState, sinkCalls]

theorem runSeq_invoked_mono (name : String) (so : Bool) (arr : List Listener)
    (st : Listeners) (k : Nat) :
    (runSeq name so arr st k).invoked <+: arr.map Listener.id := by
  induction arr generalizing st k with
  | nil => simp [runSeq]
  | cons l rest ih =>
      cases he : herr l.handler with
      | none =>
          simp only [runSeq, runHandler_snd, he, List.map_cons]
          obtain ⟨t, ht⟩ := ih (runHandler l.handler st).1 (k + 1)
          exact ⟨t, by simp [ht]⟩
      | some e =>
          cases so with
          | true =>
              simp only [runSeq, runHandler_snd, he, if_true, List.map_cons]
              exact ⟨rest.map Listener.id, rfl⟩
          | false =>
              simp only [runSeq, runHandler_snd, he, Bool.false_eq_true, if_false,
                List.map_cons]
              obtain ⟨t, ht⟩ := ih (runHandler l.handler st).1 (k + 1)
              exact ⟨t, by simp [ht]⟩

theorem sinkCalls_append (name : String) (k : Nat) (xs ys : List Listener) :
    sinkCalls name k (xs ++ ys) = sinkCalls name k xs ++ sinkCalls name (k + xs.length) ys := by
  induction xs generalizing k with
  | nil => simp [sinkCalls]
  | cons l rest ih =>
      cases he : herr l.handler with
      | none =>
          have harith : k + (rest.length + 1) = (k + 1) + rest.length := by omega
          simp only [List.cons_append, sinkCalls, he, List.length_cons, harith, List.append_eq, ih]
      | some e =>
          have harith : k + (rest.length + 1) = (k + 1) + rest.length := by omega
          simp only [List.cons_append, sinkCalls, he, List.length_cons, harith, List.append_eq, ih]

theorem runSeq_first_fail (name : String) (xs : List Listener) (st : Listeners)
    (k i e : Nat) (hi : i < xs.length)
    (hb : ∀ j, j < i → herr (xs.getD j dummyL).handler = none)
    (hf : herr (xs.getD i dummyL).handler = some e) :
    runSeq name true xs st k
      = ⟨groupState (xs.take (i + 1)) st, (xs.take (i + 1)).map Listener.id,
         [⟨e, name, k + i⟩], some e⟩ := by
  induction xs generalizing st k i with
  | nil => exact absurd hi (by simp)
  | cons l rest ih =>
      cases i with
      | zero =>
          have hl : herr l.handler = some e := by simpa [List.getD] using hf
          simp [runSeq, runHandler_snd, hl, groupState, List.take]
      | succ j =>
          have hl : herr l.handler = none := by
            have h0 := hb 0 (Nat.succ_pos j)
            simpa [List.getD] using h0
          have hb' : ∀ j2, j2 < j → herr (rest.getD j2 dummyL).handler = none := by
            intro j2 hj2
            have hj3 := hb (j2 + 1) (Nat.succ_lt_succ hj2)
            simpa [List.getD] using hj3
          have hf' : herr (rest.getD j dummyL).handler = some e := by
            simpa [List.getD] using hf
          have hi' : j < rest.length := by simpa using Nat.lt_of_succ_lt_succ hi
          simp only [runSeq, runHandler_snd, hl, List.take, groupState, List.map_cons]
          rw [ih (runHandler l.handler st).1 (k + 1) j hi' hb' hf']
          have harith : k + 1 + j = k + (j + 1) := by omega
          simp [harith]

theorem emit_parts (st : Listeners) (evName : String) :
    emit st evName
      = ⟨groupState (emitWildcardArr st evName)
            (groupState ((getL st (jsTrim evName)).getD []) st),
         ((getL st (jsTrim evName)).getD []).map Listener.id
            ++ (emitWildcardArr st evName).map Listener.id,
         sinkCalls (jsTrim evName) 0
            (((getL st (jsTrim evName)).getD []) ++ emitWildcardArr st evName)⟩ := by
  simp [emit, emitSpecPass, runGroup_eq, sinkCalls_append]

theorem addToKey_idem (l : Listener) (st : Listeners) (n : String) :
    addToKey l (addToKey l st n) n = addToKey l st n := by
  induction st with
  | nil => simp [addToKey, addOnce]
  | cons p rest ih =>
      by_cases hp : p.1 = n
      · simp [addToKey, hp, addOnce_idem]
      · simp [addToKey, hp, ih]

theorem addOnce_count (l : Listener) (ls : List Listener)
    (hc : (ls.map Listener.id).count l.id ≤ 1) :
    ((addOnce l ls).map Listener.id).count l.id = 1 := by
  by_cases hany : (ls.any fun x => x.id == l.id) = true
  · have hmem : l.id ∈ ls.map Listener.id := by
      simp only [List.any_eq_true, beq_iff_eq] at hany
      obtain ⟨x, hx, hid⟩ := hany
      exact List.mem_map.mpr ⟨x, hx, hid⟩
    have hpos : 0 < (ls.map Listener.id).count l.id := List.count_pos_iff.mpr hmem
    have heq : addOnce l ls = ls := by simp [addOnce, hany]
    rw [heq]
    omega
  · have hnot : l.id ∉ ls.map Listener.id := by
      intro hmem
      obtain ⟨x, hx, hid⟩ := List.mem_map.mp hmem
      exact hany (List.any_eq_true.mpr ⟨x, hx, beq_iff_eq.mpr hid⟩)
    have hzero : (ls.map Listener.id).count l.id = 0 := List.count_eq_zero.mpr hnot
    have heq : addOnce l ls = ls ++ [l] := by simp [addOnce, hany]
    rw [heq]
    simp [List.count_append, hzero]

theorem emitAsync_invoked_mono (st : Listeners) (evName : String) (mo : Option String)
    (so : Bool) :
    (emitAsync st evName mo so).invoked <+: (asyncSnapshot st evName).map Listener.id := by
  simp only [emitAsync]
  split_ifs with hm
  · exact runSeq_invoked_mono (jsTrim evName) so (asyncSnapshot st evName) st 0
  · rw [runConc_eq]

theorem emitAsync_no_halt (st : Listeners) (evName : String) (mo : Option String)
    (so : Bool) (h : so = false ∨ mo.getD "sequential" ≠ "sequential") :
    emitAsync st evName mo so
      = ⟨groupState (asyncSnapshot st evName) st,
         (asyncSnapshot st evName).map Listener.id,
         sinkCalls (jsTrim evName) 0 (asyncSnapshot st evName),
         none⟩ := by
  simp only [emitAsync]
  split_ifs with hm
  · rcases h with h | h
    · subst h
      exact runSeq_false_eq _ _ _ _
    · exact absurd hm h
  · exact runConc_eq _ _ _ _

theorem wildcardArr_mono (st : Listeners) (evName : String) :
    keyIds st "*" <+: (emitWildcardArr st evName).map Listener.id := by
  unfold emitWildcardArr
  by_cases hw : (getL st "*").isSome
  · rw [if_pos hw]
    have hs : (emitSpecPass st evName).state
        = groupState ((getL st (jsTrim evName)).getD []) st := by
      simp [emitSpecPass, runGroup_eq]
    rw [hs]
    exact (groupState_mono _ st "*").map Listener.id
  · rw [if_neg hw]
    have hnone : getL st "*" = none := Option.not_isSome_iff_eq_none.mp hw
    simp [keyIds, hnone]

/-! ### Claim theorems -/

/-- C6: for every sequential `emitAsync` call with `stopOnError = false`,
every listener in the combined snapshot is invoked exactly once (the
invoked sequence is exactly the snapshot, position by position), no matter
which wrapped outcomes fail, and the overall call resolves successfully
(it does not reject). -/
theorem claim_C6_seq_no_stop (st : Listeners) (evName : String) :
    (emitAsync st evName (some "sequential") false).invoked
        = (asyncSnapshot st evName).map Listener.id
    ∧ (emitAsync st evName (some "sequential") false).rejected = none := by
  rw [emitAsync_no_halt st evName (some "sequential") false (Or.inl rfl)]
  exact ⟨rfl, rfl⟩

/-- C7: for every synchronous `emit` call, the invoked sequence is the
whole specific pass followed by the whole wildcard pass — a failing
handler never prevents a later listener, specific or wildcard, from being
invoked — and the error sink receives exactly the failures, each paired
with the trimmed event key and the zero-based index counted across both
passes (`emit` itself is a total function: it never raises to its caller;
with no sink configured the `errors` list is simply discarded). -/
theorem claim_C7_emit_isolation (st : Listeners) (evName : String) :
    (emit st evName).invoked
      = (((getL st (jsTrim evName)).getD []) ++ emitWildcardArr st evName).map Listener.id
    ∧ (emit st evName).errors
      = sinkCalls (jsTrim evName) 0
          (((getL st (jsTrim evName)).getD []) ++ emitWildcardArr st evName) := by
  rw [emit_parts]
  exact ⟨by simp, rfl⟩

/-- C8: for every concurrent-mode `emitAsync` call, the result reflects
every listener of the snapshot (the call settles only after every wrapped
outcome has settled — all of them are run and accounted for), every
failure is routed to the error sink with its index, the call itself
resolves successfully (`rejected = none`), and `stopOnError` has no
effect (the result is the same for both values). -/
theorem claim_C8_concurrent (st : Listeners) (evName : String) (so : Bool) :
    (emitAsync st evName (some "concurrent") so).invoked
        = (asyncSnapshot st evName).map Listener.id
    ∧ (emitAsync st evName (some "concurrent") so).errors
        = sinkCalls (jsTrim evName) 0 (asyncSnapshot st evName)
    ∧ (emitAsync st evName (some "concurrent") so).rejected = none
    ∧ emitAsync st evName (some "concurrent") so
        = emitAsync st evName (some "concurrent") false := by
  have hne : (some "concurrent").getD "sequential" ≠ "sequential" := by decide
  rw [emitAsync_no_halt st evName (some "concurrent") so (Or.inr hne),
    emitAsync_no_halt st evName (some "concurrent") false (Or.inr hne)]
  exact ⟨rfl, rfl, rfl, rfl⟩

/-- C10: for every `emitAsync` call whose `options.mode` is any string
other than the exact `"sequential"` (for example `"parallel"`), dispatch
takes the concurrent (`Promise.all`) path: the result coincides with
`mode = "concurrent"`, every listener of the snapshot is started,
`stopOnError` is ignored, while an omitted mode defaults to
`"sequential"`. -/
theorem claim_C10_mode_dispatch (st : Listeners) (evName : String) (m : String)
    (so : Bool) (hm : m ≠ "sequential") :
    emitAsync st evName (some m) so = emitAsync st evName (some "concurrent") so
    ∧ (emitAsync st evName (some m) so).invoked = (asyncSnapshot st evName).map Listener.id
    ∧ emitAsync st evName (some m) so = emitAsync st evName (some m) false
    ∧ emitAsync st evName none so = emitAsync st evName (some "sequential") so := by
  have hm' : (some m).getD "sequential" ≠ "sequential" := by simpa using hm
  have hc : (some "concurrent").getD "sequential" ≠ "sequential" := by decide
  rw [emitAsync_no_halt st evName (some m) so (Or.inr hm'),
    emitAsync_no_halt st evName (some "concurrent") so (Or.inr hc),
    emitAsync_no_halt st evName (some m) false (Or.inr hm')]
  refine ⟨rfl, rfl, rfl, ?_⟩
  simp [emitAsync]

/-- C10 witness: concrete instance with `mode = "parallel"` (the value the
package documentation uses), one specific and one wildcard listener. -/
theorem claim_C10_mode_dispatch_witness :
    ("parallel" ≠ "sequential")
    ∧ (emitAsync [("a", [(⟨0, Handler.ok⟩ : Listener)]), ("*", [(⟨1, Handler.ok⟩ : Listener)])]
          "a" (some "parallel") true
        = emitAsync [("a", [(⟨0, Handler.ok⟩ : Listener)]), ("*", [(⟨1, Handler.ok⟩ : Listener)])]
          "a" (some "concurrent") true
      ∧ (emitAsync [("a", [(⟨0, Handler.ok⟩ : Listener)]), ("*", [(⟨1, Handler.ok⟩ : Listener)])]
          "a" (some "parallel") true).invoked
          = (asyncSnapshot [("a", [(⟨0, Handler.ok⟩ : Listener)]), ("*", [(⟨1, Handler.ok⟩ : Listener)])]
              "a").map Listener.id
      ∧ emitAsync [("a", [(⟨0, Handler.ok⟩ : Listener)]), ("*", [(⟨1, Handler.ok⟩ : Listener)])]
          "a" (some "parallel") true
        = emitAsync [("a", [(⟨0, Handler.ok⟩ : Listener)]), ("*", [(⟨1, Handler.ok⟩ : Listener)])]
          "a" (some "parallel") false
      ∧ emitAsync [("a", [(⟨0, Handler.ok⟩ : Listener)]), ("*", [(⟨1, Handler.ok⟩ : Listener)])]
          "a" none true
        = emitAsync [("a", [(⟨0, Handler.ok⟩ : Listener)]), ("*", [(⟨1, Handler.ok⟩ : Listener)])]
          "a" (some "sequential") true) :=
  ⟨by decide,
   claim_C10_mode_dispatch
     [("a", [(⟨0, Handler.ok⟩ : Listener)]), ("*", [(⟨1, Handler.ok⟩ : Listener)])]
     "a" "parallel" true (by decide)⟩

/-- C9: registering the same listener instance twice under the same key is
idempotent — the duplicate registration is the identity on the registry,
the (trimmed) key's set ends with exactly one entry for the listener
(given the well-formedness invariant that a listener identity occurs at
most once beforehand), other keys are untouched, and the existing
listeners of the key keep their relative order (the first registration
only ever appends at the end).  `registerL` is total: registration never
fails. -/
theorem claim_C9_register_idempotent (st : Listeners) (k : String) (l : Listener)
    (hc : (((getL st (jsTrim k)).getD []).map Listener.id).count l.id ≤ 1) :
    registerL (registerL st k l) k l = registerL st k l
    ∧ (((getL (registerL (registerL st k l) k l) (jsTrim k)).getD []).map
          Listener.id).count l.id = 1
    ∧ (∀ k2, k2 ≠ jsTrim k → getL (registerL st k l) k2 = getL st k2)
    ∧ ((getL st (jsTrim k)).getD []) <+: ((getL (registerL st k l) (jsTrim k)).getD []) := by
  refine ⟨addToKey_idem l st (jsTrim k), ?_, ?_, ?_⟩
  · rw [show registerL (registerL st k l) k l = registerL st k l from
      addToKey_idem l st (jsTrim k)]
    show (((getL (addToKey l st (jsTrim k)) (jsTrim k)).getD []).map
      Listener.id).count l.id = 1
    rw [getL_addToKey_self]
    simpa using addOnce_count l _ hc
  · intro k2 hk2
    exact getL_addToKey_ne l st (jsTrim k) k2 hk2
  · exact getL_addToKey_mono l st (jsTrim k) (jsTrim k)

/-- C9 witness: registering listener id 5 twice under `"a"` in the empty
registry. -/
theorem claim_C9_register_idempotent_witness :
    ((((getL ([] : Listeners) (jsTrim "a")).getD []).map Listener.id).count 5 ≤ 1)
    ∧ (registerL (registerL [] "a" ⟨5, Handler.ok⟩) "a" ⟨5, Handler.ok⟩
          = registerL [] "a" ⟨5, Handler.ok⟩
      ∧ (((getL (registerL (registerL [] "a" ⟨5, Handler.ok⟩) "a" ⟨5, Handler.ok⟩)
            (jsTrim "a")).getD []).map Listener.id).count 5 = 1
      ∧ (∀ k2, k2 ≠ jsTrim "a" →
          getL (registerL [] "a" ⟨5, Handler.ok⟩) k2 = getL ([] : Listeners) k2)
      ∧ ((getL ([] : Listeners) (jsTrim "a")).getD [])
          <+: ((getL (registerL [] "a" ⟨5, Handler.ok⟩) (jsTrim "a")).getD [])) :=
  ⟨by decide, claim_C9_register_idempotent [] "a" ⟨5, Handler.ok⟩ (by decide)⟩

/-- C4: for an emitted key that does not trim to `*`, dispatch order is
specific listeners first, wildcard listeners second, insertion order
inside each group.  For `emit`: the invoked sequence starts with exactly
the dispatch-start specific snapshot in order, and the dispatch-start
wildcard listeners follow, in order, as a prefix of the remaining
invocations.  For `emitAsync` (any mode, any `stopOnError`): the invoked
sequence is a prefix of specific-ids ++ wildcard-ids — so any wildcard
invocation happens after all specific invocations — with equality
(every listener started) whenever dispatch is not halted by
`stopOnError` in sequential mode. -/
theorem claim_C4_ordering (st : Listeners) (evName : String) (mo : Option String)
    (so : Bool) (hk : jsTrim evName ≠ "*") :
    (∃ rest, (emit st evName).invoked = keyIds st (jsTrim evName) ++ rest
        ∧ keyIds st "*" <+: rest)
    ∧ (emitAsync st evName mo so).invoked
        <+: keyIds st (jsTrim evName) ++ keyIds st "*"
    ∧ ((so = false ∨ mo.getD "sequential" ≠ "sequential") →
        (emitAsync st evName mo so).invoked
          = keyIds st (jsTrim evName) ++ keyIds st "*") := by
  refine ⟨⟨(emitWildcardArr st evName).map Listener.id, ?_, wildcardArr_mono st evName⟩,
    ?_, ?_⟩
  · rw [emit_parts]
    rfl
  · have h := emitAsync_invoked_mono st evName mo so
    have hsnap : (asyncSnapshot st evName).map Listener.id
        = keyIds st (jsTrim evName) ++ keyIds st "*" := by
      simp [asyncSnapshot, keyIds]
    rwa [hsnap] at h
  · intro h
    rw [emitAsync_no_halt st evName mo so h]
    simp [asyncSnapshot, keyIds]

/-- C4 witness: one listener on `"a"`, one on `"*"`, emitted key `"a"`,
default (sequential) mode without `stopOnError`. -/
theorem claim_C4_ordering_witness :
    (jsTrim "a" ≠ "*")
    ∧ ((∃ rest,
          (emit [("a", [(⟨0, Handler.ok⟩ : Listener)]), ("*", [(⟨1, Handler.ok⟩ : Listener)])]
            "a").invoked
            = keyIds [("a", [(⟨0, Handler.ok⟩ : Listener)]), ("*", [(⟨1, Handler.ok⟩ : Listener)])]
                (jsTrim "a") ++ rest
          ∧ keyIds [("a", [(⟨0, Handler.ok⟩ : Listener)]), ("*", [(⟨1, Handler.ok⟩ : Listener)])]
              "*" <+: rest)
      ∧ (emitAsync [("a", [(⟨0, Handler.ok⟩ : Listener)]), ("*", [(⟨1, Handler.ok⟩ : Listener)])]
            "a" none false).invoked
          <+: keyIds [("a", [(⟨0, Handler.ok⟩ : Listener)]), ("*", [(⟨1, Handler.ok⟩ : Listener)])]
                (jsTrim "a")
              ++ keyIds [("a", [(⟨0, Handler.ok⟩ : Listener)]), ("*", [(⟨1, Handler.ok⟩ : Listener)])]
                "*"
      ∧ ((false = false ∨ (none : Option String).getD "sequential" ≠ "sequential") →
          (emitAsync [("a", [(⟨0, Handler.ok⟩ : Listener)]), ("*", [(⟨1, Handler.ok⟩ : Listener)])]
              "a" none false).invoked
            = keyIds [("a", [(⟨0, Handler.ok⟩ : Listener)]), ("*", [(⟨1, Handler.ok⟩ : Listener)])]
                (jsTrim "a")
              ++ keyIds [("a", [(⟨0, Handler.ok⟩ : Listener)]), ("*", [(⟨1, Handler.ok⟩ : Listener)])]
                "*")) :=
  ⟨by decide,
   claim_C4_ordering
     [("a", [(⟨0, Handler.ok⟩ : Listener)]), ("*", [(⟨1, Handler.ok⟩ : Listener)])]
     "a" none false (by decide)⟩

/-- C5: in sequential mode with `stopOnError = true`, when position `i` of
the combined snapshot is the first listener whose wrapped outcome fails
(with error `e`), the error sink receives exactly the one call
`(e, key, i)`, the invoked sequence is exactly the snapshot up to and
including position `i` (nothing after `i` is invoked), and the overall
call rejects with `e`. -/
theorem claim_C5_stop_on_error (st : Listeners) (evName : String) (i e : Nat)
    (hi : i < (asyncSnapshot st evName).length)
    (hb : ∀ j, j < i → herr ((asyncSnapshot st evName).getD j dummyL).handler = none)
    (hf : herr ((asyncSnapshot st evName).getD i dummyL).handler = some e) :
    (emitAsync st evName (some "sequential") true).errors = [⟨e, jsTrim evName, i⟩]
    ∧ (emitAsync st evName (some "sequential") true).invoked
        = ((asyncSnapshot st evName).take (i + 1)).map Listener.id
    ∧ (emitAsync st evName (some "sequential") true).rejected = some e := by
  have h := runSeq_first_fail (jsTrim evName) (asyncSnapshot st evName) st 0 i e hi hb hf
  rw [show (0 : Nat) + i = i from by omega] at h
  simp [emitAsync, h]

/-- C5 witness: a single specific listener that rejects with error 7 at
snapshot position 0. -/
theorem claim_C5_stop_on_error_witness :
    (0 < (asyncSnapshot [("a", [(⟨3, Handler.throwErr 7⟩ : Listener)])] "a").length)
    ∧ (∀ j, j < 0 →
        herr ((asyncSnapshot [("a", [(⟨3, Handler.throwErr 7⟩ : Listener)])] "a").getD j
          dummyL).handler = none)
    ∧ (herr ((asyncSnapshot [("a", [(⟨3, Handler.throwErr 7⟩ : Listener)])] "a").getD 0
        dummyL).handler = some 7)
    ∧ ((emitAsync [("a", [(⟨3, Handler.throwErr 7⟩ : Listener)])] "a"
          (some "sequential") true).errors = [⟨7, jsTrim "a", 0⟩]
      ∧ (emitAsync [("a", [(⟨3, Handler.throwErr 7⟩ : Listener)])] "a"
          (some "sequential") true).invoked
          = ((asyncSnapshot [("a", [(⟨3, Handler.throwErr 7⟩ : Listener)])] "a").take
              (0 + 1)).map Listener.id
      ∧ (emitAsync [("a", [(⟨3, Handler.throwErr 7⟩ : Listener)])] "a"
          (some "sequential") true).rejected = some 7) :=
  ⟨by decide, fun j hj => absurd hj (Nat.not_lt_zero j), by decide,
   claim_C5_stop_on_error [("a", [(⟨3, Handler.throwErr 7⟩ : Listener)])] "a" 0 7
     (by decide) (fun j hj => absurd hj (Nat.not_lt_zero j)) (by decide)⟩

/-- C1 (counterexample): with a single listener (id 0) registered under
`*`, emitting the key `*` invokes it twice — once in the specific pass and
once in the wildcard pass — in both `emit` and sequential `emitAsync`,
refuting "each listener registered under `*` is invoked exactly once ...
because only the wildcard listener set is used when the emitted key is
itself `*`": the code has no such guard, and the specific lookup for `*`
returns the wildcard set itself. -/
theorem claim_C1_counterexample :
    ((emit [("*", [(⟨0, Handler.ok⟩ : Listener)])] "*").invoked = [0, 0])
    ∧ ¬ ((emit [("*", [(⟨0, Handler.ok⟩ : Listener)])] "*").invoked.count 0 = 1)
    ∧ ((emitAsync [("*", [(⟨0, Handler.ok⟩ : Listener)])] "*"
          (some "sequential") false).invoked = [0, 0]) := by
  decide

/-- C1 (amended): when the emitted key trims to `*`, each listener
registered under `*` is dispatched twice, not once: the `emitAsync`
combined snapshot is the `*` snapshot concatenated with itself, and
`emit` runs the `*` set in both passes — the dispatch-start `*` ids open
the invoked sequence and reappear (as a prefix of the rest, allowing for
handlers that register further `*` listeners mid-dispatch) in the
wildcard pass. -/
theorem claim_C1_amended (st : Listeners) (evName : String)
    (h : jsTrim evName = "*") :
    asyncSnapshot st evName = ((getL st "*").getD []) ++ ((getL st "*").getD [])
    ∧ (∃ rest, (emit st evName).invoked = keyIds st "*" ++ rest
        ∧ keyIds st "*" <+: rest) := by
  constructor
  · simp [asyncSnapshot, h]
  · refine ⟨(emitWildcardArr st evName).map Listener.id, ?_, wildcardArr_mono st evName⟩
    rw [emit_parts, h]
    rfl

/-- C1 (amended) witness: the single-`*`-listener registry emitted on
key `*`. -/
theorem claim_C1_amended_witness :
    (jsTrim "*" = "*")
    ∧ (asyncSnapshot [("*", [(⟨0, Handler.ok⟩ : Listener)])] "*"
        = ((getL [("*", [(⟨0, Handler.ok⟩ : Listener)])] "*").getD [])
          ++ ((getL [("*", [(⟨0, Handler.ok⟩ : Listener)])] "*").getD [])
      ∧ (∃ rest, (emit [("*", [(⟨0, Handler.ok⟩ : Listener)])] "*").invoked
            = keyIds [("*", [(⟨0, Handler.ok⟩ : Listener)])] "*" ++ rest
          ∧ keyIds [("*", [(⟨0, Handler.ok⟩ : Listener)])] "*" <+: rest)) :=
  ⟨by decide, claim_C1_amended [("*", [(⟨0, Handler.ok⟩ : Listener)])] "*" (by decide)⟩

/-- C3 (counterexample): in `c3StateEx` the only listener on `"a"`
(id 0) registers a new `*` listener (id 1) from inside its handler; the
pre-existing `*` listener has id 2.  `emit` on `"a"` invokes `[0, 2, 1]`:
the listener registered during the dispatch IS invoked by the in-flight
call (id 1 appears even though no listener with id 1 was registered under
`"a"` or `"*"` when dispatch began), refuting "a registration performed
during the dispatch ... is never invoked by the in-flight call".  The
wildcard pass takes its `Array.from` snapshot only after the specific
pass finished, from the live `Set` captured at dispatch start. -/
theorem claim_C3_counterexample :
    ((emit c3StateEx "a").invoked = [0, 2, 1])
    ∧ ((keyIds c3StateEx "a" ++ keyIds c3StateEx "*").count 1 = 0) := by
  decide

/-- C3 (amended): the snapshot guarantee holds for `emitAsync` — its
combined snapshot is built before any listener runs, so the invoked
sequence is always drawn from (a prefix of) the dispatch-start snapshot,
whatever the handlers register — and for the specific pass of `emit`; but
the wildcard pass of `emit` iterates the `*` set as it stands after the
specific pass (provided a `*` set existed at dispatch start), so
registrations made during the specific pass can be invoked by the same
call. -/
theorem claim_C3_amended (st : Listeners) (evName : String) (mo : Option String)
    (so : Bool) :
    (emitAsync st evName mo so).invoked <+: (asyncSnapshot st evName).map Listener.id
    ∧ (emit st evName).invoked
        = keyIds st (jsTrim evName) ++ (emitWildcardArr st evName).map Listener.id := by
  constructor
  · exact emitAsync_invoked_mono st evName mo so
  · rw [emit_parts]
    rfl

/-- C2 (counterexample): with `timeoutMs = 100` and a not-yet-aborted
signal attached, when the timer wins the race the wrapped outcome settles
as a timeout rejection while the abort-signal subscription is still
attached (`subAttached = true`): the timeout callback (lines 253–255)
never calls `removeEventListener`, refuting "the abort-signal
subscription is removed, on every settlement path". -/
theorem claim_C2_counterexample :
    (withTimeoutRun (some 100) (some false) RaceWinner.timerFired
      = some ⟨WTOutcome.rejectedTimeout, false, true⟩)
    ∧ (∃ s, withTimeoutRun (some 100) (some false) RaceWinner.timerFired = some s
        ∧ s.subAttached = true) := by
  exact ⟨by decide, ⟨WTOutcome.rejectedTimeout, false, true⟩, by decide, rfl⟩

/-- C2 (amended): on every settlement path of `withTimeout` no scheduled
timer remains pending (the losing timer is always cleared or has already
fired), but the abort-signal subscription is removed only when the
underlying promise itself settles: it is still attached at settlement
exactly when a live (not-yet-aborted) signal was supplied and the timeout
or the abort event won the race. -/
theorem claim_C2_amended (tm : Option Nat) (sig : Option Bool) (w : RaceWinner)
    (s : WTState) (h : withTimeoutRun tm sig w = some s) :
    s.timerPending = false
    ∧ (s.subAttached = true ↔
        (sig = some false ∧ (w = RaceWinner.timerFired ∨ w = RaceWinner.abortFired))) := by
  cases htm : wtTruthy tm <;>
    rcases sig with _ | b <;>
      first
      | (cases b <;> cases w <;>
          simp [withTimeoutRun, htm] at h <;> simp [← h])
      | (cases w <;> simp [withTimeoutRun, htm] at h <;> simp [← h])

/-- C2 (amended) witness: timer wins with a live signal attached — no
timer pending, subscription still attached. -/
theorem claim_C2_amended_witness :
    (withTimeoutRun (some 100) (some false) RaceWinner.timerFired
      = some ⟨WTOutcome.rejectedTimeout, false, true⟩)
    ∧ ((⟨WTOutcome.rejectedTimeout, false, true⟩ : WTState).timerPending = false
      ∧ ((⟨WTOutcome.rejectedTimeout, false, true⟩ : WTState).subAttached = true ↔
          ((some false : Option Bool) = some false
            ∧ (RaceWinner.timerFired = RaceWinner.timerFired
              ∨ RaceWinner.timerFired = RaceWinner.abortFired)))) :=
  ⟨by decide,
   claim_C2_amended (some 100) (some false) RaceWinner.timerFired
     ⟨WTOutcome.rejectedTimeout, false, true⟩ (by decide)⟩
